import Mathlib

/-!
# Verification of the rubic-sdk batching / quote-orchestration core

Shallow embedding of the repository's RPC batching layer (`Web3Public`:
`rpcBatchRequest`, `batchEstimatedGas`, `getTokensBalances`,
`multicallContractMethod`, `multicall`) and of the quote orchestrator
(`CrossChainManager`: `calculateTrade`, `calculateTradeFromTokens`,
`calculateBestTradeFromTokens`, `getProviderRatio`).

Modelling conventions:
* `BigNumber` values are modelled as exact rationals (`ℚ`), with
  `new BigNumber(Infinity)` modelled as `⊤` in `WithTop ℚ`.
* Asynchronous collaborators (the HTTP transport, the multicall contract,
  per-provider calculation results) are passed in as explicit function
  parameters; `Promise.all` over independent operations is order-independent
  and is modelled by plain function application.
* `Array.prototype.sort(cmp)` is modelled by the insertion sort `jsSort`:
  an element is moved ahead only of elements it strictly precedes
  (`cmp x y < 0`).  For a consistent comparator this agrees with the
  ECMAScript guarantee (a sorted permutation of the input).
* In-place mutation of a caller-supplied array (`Array.prototype.splice`)
  is modelled by additionally returning the final value of that array.
-/

namespace RubicSdk

/-! ## Model of `Array.prototype.sort` -/

/-- Insert `x` into `l`, placing it before the first element `y` with
`cmp x y < 0` (so `x` passes only elements it strictly precedes). -/
def jsInsert {α : Type} (cmp : α → α → Int) (x : α) : List α → List α
  | [] => [x]
  | y :: ys => if cmp x y < 0 then x :: y :: ys else y :: jsInsert cmp x ys

/-- Model of `Array.prototype.sort(cmp)` as an insertion sort. -/
def jsSort {α : Type} (cmp : α → α → Int) : List α → List α
  | [] => []
  | x :: xs => jsInsert cmp x (jsSort cmp xs)

theorem jsInsert_perm {α : Type} (cmp : α → α → Int) (x : α) (l : List α) :
    (jsInsert cmp x l).Perm (x :: l) := by
  induction l with
  | nil => simp [jsInsert]
  | cons y ys ih =>
      by_cases h : cmp x y < 0
      · simp [jsInsert, h]
      · simp only [jsInsert, if_neg h]
        exact (ih.cons y).trans (List.Perm.swap x y ys)

theorem jsSort_perm {α : Type} (cmp : α → α → Int) (l : List α) :
    (jsSort cmp l).Perm l := by
  induction l with
  | nil => simp [jsSort]
  | cons x xs ih =>
      exact (jsInsert_perm cmp x (jsSort cmp xs)).trans (ih.cons x)

theorem mem_jsInsert {α : Type} {cmp : α → α → Int} {x z : α} {l : List α} :
    z ∈ jsInsert cmp x l ↔ z = x ∨ z ∈ l := by
  constructor
  · intro h
    have := (jsInsert_perm cmp x l).mem_iff.mp h
    simpa using this
  · intro h
    apply (jsInsert_perm cmp x l).mem_iff.mpr
    simpa using h

theorem jsInsert_pairwise {α : Type} {cmp : α → α → Int}
    (htot : ∀ a b, ¬ cmp a b < 0 → cmp b a ≤ 0)
    (htrans : ∀ a b c, cmp a b ≤ 0 → cmp b c ≤ 0 → cmp a c ≤ 0)
    {x : α} {l : List α}
    (hl : l.Pairwise (fun a b => cmp a b ≤ 0)) :
    (jsInsert cmp x l).Pairwise (fun a b => cmp a b ≤ 0) := by
  induction l with
  | nil => simp [jsInsert]
  | cons y ys ih =>
      rcases List.pairwise_cons.mp hl with ⟨hy, hys⟩
      by_cases h : cmp x y < 0
      · simp only [jsInsert, if_pos h]
        refine List.pairwise_cons.mpr ⟨?_, List.pairwise_cons.mpr ⟨hy, hys⟩⟩
        intro z hz
        rcases List.mem_cons.mp hz with hzy | hz
        · exact hzy ▸ le_of_lt h
        · exact htrans x y z (le_of_lt h) (hy z hz)
      · simp only [jsInsert, if_neg h]
        refine List.pairwise_cons.mpr ⟨?_, ih hys⟩
        intro z hz
        rcases mem_jsInsert.mp hz with hzx | hz
        · exact hzx ▸ htot x y h
        · exact hy z hz

theorem jsSort_pairwise {α : Type} {cmp : α → α → Int}
    (htot : ∀ a b, ¬ cmp a b < 0 → cmp b a ≤ 0)
    (htrans : ∀ a b c, cmp a b ≤ 0 → cmp b c ≤ 0 → cmp a c ≤ 0)
    (l : List α) :
    (jsSort cmp l).Pairwise (fun a b => cmp a b ≤ 0) := by
  induction l with
  | nil => simp [jsSort]
  | cons x xs ih => exact jsInsert_pairwise htot htrans ih

/-! ## RPC batching layer (`Web3Public`, src/unnamed/part_000)

The HTTP client and the RPC node are external collaborators: the outcome of
`httpClient.post` is a parameter `post` returning either a transport-level
error (`Except.error`, the rejected promise) or the node's response list. -/

/-- One entry of `rpcCallsData`: `{ rpcMethod, params }`.  The parameter
payload is opaque to the batching layer. -/
structure RpcCallData (P : Type) where
  rpcMethod : String
  params : P

/-- One entry of the JSON-RPC batch envelope built inside `rpcBatchRequest`:
`{ id: seed + index, jsonrpc: '2.0', method, params }`. -/
structure BatchEntry (P : Type) where
  id : Nat
  jsonrpc : String
  method : String
  params : P

/-- One entry of the node's batched response.  The code only tests the
truthiness of `error`, so it is a `Bool` here; `result` may be absent. -/
structure RpcResponse (T : Type) where
  id : Nat
  error : Bool
  result : Option T
deriving DecidableEq

/-- The comparator `(a, b) => a.id - b.id` used on the response set. -/
def rpcIdCmp {T : Type} (a b : RpcResponse T) : Int :=
  (a.id : Int) - (b.id : Int)

/-- The batch envelope of `rpcBatchRequest`: each call is assigned the
correlation id `seed + index` (`seed = Date.now()` is a parameter here). -/
def rpcBatchEnvelope {P : Type} (seed : Nat) (rpcCallsData : List (RpcCallData P)) :
    List (BatchEntry P) :=
  rpcCallsData.enum.map fun p => ⟨seed + p.1, "2.0", p.2.rpcMethod, p.2.params⟩

/-- `Web3Public.rpcBatchRequest`: build the id-tagged envelope, post it, and
on success sort the response set by id and map node-side errors to `null`.
A transport-level failure of `post` is not caught. -/
def rpcBatchRequest {P T E : Type} (seed : Nat) (rpcCallsData : List (RpcCallData P))
    (post : List (BatchEntry P) → Except E (List (RpcResponse T))) :
    Except E (List (Option T)) :=
  match post (rpcBatchEnvelope seed rpcCallsData) with
  | .error e => .error e
  | .ok response =>
      .ok ((jsSort rpcIdCmp response).map fun item =>
        if item.error then none else item.result)

/-- `Web3Public.batchEstimatedGas`: encode each call, issue one
`rpcBatchRequest`, and map each returned string to a `BigNumber` (or `null`
for a falsy entry).  The surrounding `try/catch` turns ANY thrown error —
including a transport-level failure of the batch — into an all-`null` list
of the same length as `callsData`. -/
def batchEstimatedGas {B P E : Type} (seed : Nat) (callsData : List B)
    (encodeCall : B → RpcCallData P)
    (post : List (BatchEntry P) → Except E (List (RpcResponse String)))
    (toBigNumber : String → ℚ) : List (Option ℚ) :=
  match rpcBatchRequest seed (callsData.map encodeCall) post with
  | .error _ => callsData.map fun _ => none
  | .ok result =>
      result.map fun value =>
        match value with
        | none => none
        | some s => if s = "" then none else some (toBigNumber s)

/-- The canonical response set for a batch of `n` calls: one response per
call, carrying call `i`'s node-side outcome (`err i`, `res i`) under the
correlation id `seed + i` that `rpcBatchRequest` assigned to it.  A transport
delivering the responses in an arbitrary order is any permutation of this. -/
def canonicalResponses (T : Type) (seed n : Nat) (err : Nat → Bool) (res : Nat → Option T) :
    List (RpcResponse T) :=
  (List.range n).map fun i => ⟨seed + i, err i, res i⟩

theorem canonicalResponses_ids_nodup (T : Type) (seed n : Nat)
    (err : Nat → Bool) (res : Nat → Option T) :
    ((canonicalResponses T seed n err res).map (fun r => r.id)).Nodup := by
  have : (canonicalResponses T seed n err res).map (fun r => r.id)
      = (List.range n).map (fun i => seed + i) := by
    simp [canonicalResponses, List.map_map]
  rw [this]
  exact (List.nodup_range n).map fun a b h => by omega

theorem canonicalResponses_sorted (T : Type) (seed n : Nat)
    (err : Nat → Bool) (res : Nat → Option T) :
    (canonicalResponses T seed n err res).Pairwise (fun a b => a.id < b.id) := by
  unfold canonicalResponses
  rw [List.pairwise_map]
  refine (List.pairwise_lt_range n).imp ?_
  intro a b h
  show seed + a < seed + b
  omega

/-- Sorting any permutation of the canonical response set by correlation id
recovers exactly the canonical (input-aligned) order. -/
theorem jsSort_canonical {T : Type} {seed n : Nat} {err : Nat → Bool}
    {res : Nat → Option T} {response : List (RpcResponse T)}
    (hperm : response.Perm (canonicalResponses T seed n err res)) :
    jsSort rpcIdCmp response = canonicalResponses T seed n err res := by
  have htot : ∀ a b : RpcResponse T, ¬ rpcIdCmp a b < 0 → rpcIdCmp b a ≤ 0 := by
    intro a b h
    unfold rpcIdCmp at h ⊢
    omega
  have htrans : ∀ a b c : RpcResponse T,
      rpcIdCmp a b ≤ 0 → rpcIdCmp b c ≤ 0 → rpcIdCmp a c ≤ 0 := by
    intro a b c h₁ h₂
    unfold rpcIdCmp at h₁ h₂ ⊢
    omega
  have hperm' : (jsSort rpcIdCmp response).Perm (canonicalResponses T seed n err res) :=
    (jsSort_perm rpcIdCmp response).trans hperm
  have hle := jsSort_pairwise htot htrans response
  have hnodup : ((jsSort rpcIdCmp response).map (fun r => r.id)).Nodup :=
    (hperm'.map (fun r => r.id)).nodup_iff.mpr
      (canonicalResponses_ids_nodup T seed n err res)
  have hne : (jsSort rpcIdCmp response).Pairwise (fun a b => a.id ≠ b.id) :=
    List.pairwise_map.mp hnodup
  have hlt : (jsSort rpcIdCmp response).Pairwise (fun a b => a.id < b.id) := by
    refine (hle.and hne).imp ?_
    intro a b h
    have h1 : (a.id : Int) - b.id ≤ 0 := h.1
    have h2 : a.id ≠ b.id := h.2
    omega
  haveI : IsAntisymm (RpcResponse T) (fun a b => a.id < b.id) :=
    ⟨fun a b h h' => absurd (h.trans h') (lt_irrefl _)⟩
  exact List.eq_of_perm_of_sorted hperm' hlt
    (canonicalResponses_sorted T seed n err res)

/-- Core characterization of `rpcBatchRequest`: whenever the transport
delivers (in any order) one response per call, the returned sequence is
aligned with the submitted call order, each position holding its own call's
result, or `null` if that call errored node-side. -/
theorem rpcBatchRequest_canonical {P T E : Type} {seed : Nat}
    {rpcCallsData : List (RpcCallData P)}
    {post : List (BatchEntry P) → Except E (List (RpcResponse T))}
    {err : Nat → Bool} {res : Nat → Option T} {response : List (RpcResponse T)}
    (hpost : post (rpcBatchEnvelope seed rpcCallsData) = .ok response)
    (hperm : response.Perm
      (canonicalResponses T seed rpcCallsData.length err res)) :
    rpcBatchRequest seed rpcCallsData post
      = .ok ((List.range rpcCallsData.length).map fun i =>
          if err i then none else res i) := by
  unfold rpcBatchRequest
  rw [hpost]
  dsimp only
  rw [jsSort_canonical hperm]
  simp [canonicalResponses, List.map_map]

theorem rpcBatchEnvelope_ids {P : Type} (seed : Nat)
    (rpcCallsData : List (RpcCallData P)) :
    (rpcBatchEnvelope seed rpcCallsData).map (fun e => e.id)
      = (List.range rpcCallsData.length).map (fun i => seed + i) := by
  unfold rpcBatchEnvelope
  rw [List.map_map]
  have : ((fun e : BatchEntry P => e.id) ∘
      fun p : Nat × RpcCallData P => BatchEntry.mk (seed + p.1) "2.0" p.2.rpcMethod p.2.params)
      = (fun i => seed + i) ∘ Prod.fst := rfl
  rw [this, ← List.map_map, List.enum_map_fst]

/-! ## Multicall layer (`Web3Public.multicall`, `multicallContractMethod`,
`getTokensBalances`, src/unnamed/part_000)

The deployed multicall contract is an external collaborator.  Its
`tryAggregate(false, calls)` contract returns one `(success, returnData)`
per input call, positionally aligned, each sub-call executed independently
against the same chain state: it is modelled by a per-call `oracle`
function applied pointwise. -/

/-- `Call`: `{ target, callData }`. -/
structure Call where
  target : String
  callData : String
deriving DecidableEq

/-- `MulticallResponse`: `{ success, returnData }`. -/
structure MulticallResponse where
  success : Bool
  returnData : String
deriving DecidableEq

/-- `ContractMulticallResponse<Output>`: `{ success, output }`. -/
structure ContractMulticallResponse (O : Type) where
  success : Bool
  output : Option O

/-- `Web3Public.multicall`: one `tryAggregate(false, calls)` invocation. -/
def multicall (oracle : Call → MulticallResponse) (calls : List Call) :
    List MulticallResponse :=
  calls.map oracle

/-- `Web3Public.multicallContractMethod`: encode one call per argument list
(all against the same contract address), multicall them, then decode each
successful entry with the method's output ABI; a missing output ABI throws.
A failed entry becomes `{ success: false, output: null }` at its own
position. -/
def multicallContractMethod {A O B : Type} (oracle : Call → MulticallResponse)
    (contractAddress : String) (encode : A → String)
    (methodOutputAbi : Option B) (decodeParameters : B → String → O)
    (methodCallsArguments : List A) :
    Except String (List (ContractMulticallResponse O)) :=
  let calls : List Call :=
    methodCallsArguments.map fun callArguments => ⟨contractAddress, encode callArguments⟩
  let outputs := multicall oracle calls
  match methodOutputAbi with
  | none => .error "Contract method does not exist."
  | some abi =>
      .ok (outputs.map fun output =>
        { success := output.success
          output := if output.success
            then some (decodeParameters abi output.returnData)
            else none })

/-- `Web3Public.getTokensBalances`: extract the first native-coin address
(if any) by an in-place `splice`, fan out the remaining token addresses to
one multicall (`balanceOf` encoded once per token) alongside an independent
native-balance query, then splice the native balance back in at its
original index.  Returns the balance list together with the final value of
the caller-supplied `tokensAddresses` array (modelling the mutation). -/
def getTokensBalances (isNativeAddress : String → Bool)
    (oracle : Call → MulticallResponse) (decodeBalance : String → ℚ)
    (nativeBalance : ℚ) (encodeBalanceOf : String)
    (tokensAddresses : List String) : List ℚ × List String :=
  match tokensAddresses.findIdx? isNativeAddress with
  | some indexOfNativeCoin =>
      let remaining := tokensAddresses.eraseIdx indexOfNativeCoin
      let calls : List Call :=
        remaining.map fun tokenAddress => ⟨tokenAddress, encodeBalanceOf⟩
      let tokensBalances := (multicall oracle calls).map fun r =>
        if r.success then decodeBalance r.returnData else 0
      (tokensBalances.insertIdx indexOfNativeCoin nativeBalance, remaining)
  | none =>
      let calls : List Call :=
        tokensAddresses.map fun tokenAddress => ⟨tokenAddress, encodeBalanceOf⟩
      let tokensBalances := (multicall oracle calls).map fun r =>
        if r.success then decodeBalance r.returnData else 0
      (tokensBalances, tokensAddresses)

/-- The balance `getTokensBalances` computes for one non-native token. -/
def tokenBalanceOf (oracle : Call → MulticallResponse)
    (decodeBalance : String → ℚ) (encodeBalanceOf : String)
    (tokenAddress : String) : ℚ :=
  let r := oracle ⟨tokenAddress, encodeBalanceOf⟩
  if r.success then decodeBalance r.returnData else 0

theorem findIdx?_lt_length {p : String → Bool} {l : List String} {i : Nat}
    (h : l.findIdx? p = some i) : i < l.length := by
  induction l generalizing i with
  | nil => simp [List.findIdx?] at h
  | cons a as ih =>
      rw [List.findIdx?_cons] at h
      by_cases hp : p a
      · simp [hp] at h
        simp only [List.length_cons]
        omega
      · simp [hp] at h
        obtain ⟨j, hj, rfl⟩ := h
        have := ih hj
        simp
        omega

theorem insertIdx_length_append {α : Type} (A B : List α) (x : α) :
    List.insertIdx A.length x (A ++ B) = A ++ x :: B := by
  induction A with
  | nil => simp
  | cons a as ih => simp [List.insertIdx_succ_cons, ih]

/-! ## Quote orchestrator (`CrossChainManager`,
src/src/features/cross-chain/constants/cross-chain-contracts.ts)

Providers are external collaborators: the settled outcome of one provider
calculation — `null` for a timed-out, thrown, or empty calculation, as the
`try { pTimeout(...) } catch { return null }` wrapper produces — is given by
a function `calculate` from provider type to `Option`.  Blockchain names are
an abstract type `C`; `CelerCrossChainTradeProvider.isSupportedBlockchain`
(whose source is outside this repository slice) is an abstract predicate. -/

/-- The provider-type tags registered in `CrossChainManager.tradeProviders`. -/
inductive CrossChainTradeType
  | rubic
  | celer
  | symbiosis
  | lifi
deriving DecidableEq

/-- Which concrete `CrossChainTrade` subclass a trade is an instance of, as
far as the ranking code discriminates (`instanceof CelerCrossChainTrade`,
`instanceof LifiCrossChainTrade`). -/
inductive TradeKind
  | celer
  | lifi
  | other
deriving DecidableEq

/-- The fields of a `CrossChainTrade` read by the ranking code:
`trade.to.tokenAmount`, `trade.cryptoFeeToken.price` (Celer trades) and
`trade.from.price` (Lifi trades). -/
structure CrossChainTrade where
  kind : TradeKind
  toTokenAmount : ℚ
  cryptoFeeTokenPrice : ℚ
  fromPrice : ℚ
deriving DecidableEq

/-- A provider's wrapped calculation payload (`WrappedCrossChainTrade`
before the orchestrator tags it): `{ trade, error }`. -/
structure WrappedProviderTrade where
  trade : Option CrossChainTrade
  error : Option String
deriving DecidableEq

/-- The orchestrator's result entry: `{ ...wrappedTrade, tradeType }`. -/
structure WrappedCrossChainTrade where
  trade : Option CrossChainTrade
  error : Option String
  tradeType : CrossChainTradeType
deriving DecidableEq

/-- The fatal errors thrown by the orchestrator (`RubicSdkError`s
distinguished by message). -/
inductive CalcError
  | validationError
  | noProvidersAvailable
  | aggregateFailure
deriving DecidableEq

/-- The registry `tradeProviders`, populated in declaration order from
`[RubicCrossChainTradeProvider, CelerCrossChainTradeProvider,
SymbiosisCrossChainTradeProvider, LifiCrossChainTradeProvider]`. -/
def tradeProviders : List CrossChainTradeType :=
  [.rubic, .celer, .symbiosis, .lifi]

/-- The provider-selection filter of `calculateTradeFromTokens`: drop
explicitly disabled types; drop `RUBIC` whenever
`CelerCrossChainTradeProvider.isSupportedBlockchain` holds of both the
source and the destination blockchain. -/
def selectProviders {C : Type} (disabledProviders : List CrossChainTradeType)
    (celerIsSupportedBlockchain : C → Bool) (fromBlockchain toBlockchain : C) :
    List CrossChainTradeType :=
  tradeProviders.filter fun t =>
    if disabledProviders.contains t then false
    else if t == .rubic && celerIsSupportedBlockchain fromBlockchain
        && celerIsSupportedBlockchain toBlockchain then false
    else true

/-- `CrossChainManager.calculateTradeFromTokens`: select providers (throwing
`noProvidersAvailable` on an empty selection), fan the calculation out, drop
`null` outcomes, tag each surviving payload with its provider type, and
throw `aggregateFailure` when nothing survives. -/
def calculateTradeFromTokens {C : Type}
    (disabledProviders : List CrossChainTradeType)
    (celerIsSupportedBlockchain : C → Bool) (fromBlockchain toBlockchain : C)
    (calculate : CrossChainTradeType → Option WrappedProviderTrade) :
    Except CalcError (List WrappedCrossChainTrade) :=
  let providers :=
    selectProviders disabledProviders celerIsSupportedBlockchain fromBlockchain toBlockchain
  if providers.isEmpty then .error .noProvidersAvailable
  else
    let results := providers.filterMap fun t =>
      (calculate t).map fun w => ⟨w.trade, w.error, t⟩
    if results.isEmpty then .error .aggregateFailure
    else .ok results

/-- `CrossChainManager.getProviderRatio`.  A missing trade compares as
`new BigNumber(Infinity)`, i.e. `⊤`.  (`!fromTokenPrice` can only fire for
an absent price, handled before this point: a `BigNumber` object, zero
included, is always truthy.) -/
def getProviderRatio (trade : Option CrossChainTrade) (fromTokenPrice : ℚ) :
    WithTop ℚ :=
  match trade with
  | none => ⊤
  | some t =>
      if t.kind = .celer then
        (((fromTokenPrice + t.cryptoFeeTokenPrice) / t.toTokenAmount : ℚ) : WithTop ℚ)
      else ((fromTokenPrice / t.toTokenAmount : ℚ) : WithTop ℚ)

/-- `BigNumber.comparedTo` on ratio values: -1, 0 or 1. -/
def comparedTo (x y : WithTop ℚ) : Int :=
  if x < y then -1 else if y < x then 1 else 0

/-- The ratio comparator of `calculateBestTradeFromTokens`. -/
def ratioCmp (fromTokenPrice : ℚ) (a b : WrappedCrossChainTrade) : Int :=
  comparedTo (getProviderRatio a.trade fromTokenPrice)
    (getProviderRatio b.trade fromTokenPrice)

/-- The fallback comparator `tradeA => (tradeA?.trade ? -1 : 1)` used when
no reference price was found.  It ignores its second argument. -/
def fallbackCmp (tradeA tradeB : WrappedCrossChainTrade) : Int :=
  if tradeA.trade.isSome then -1 else 1

/-- The reference price lookup of `calculateBestTradeFromTokens`: the
`from.price` of the first wrapped trade whose trade is a
`LifiCrossChainTrade` instance, when that exists. -/
def findFromTokenPrice (wrappedTrades : List WrappedCrossChainTrade) : Option ℚ :=
  ((wrappedTrades.find? fun w =>
      match w.trade with
      | some t => t.kind == .lifi
      | none => false).bind fun w => w.trade).map fun t => t.fromPrice

/-- The ranking step of `calculateBestTradeFromTokens` (lines 252-265). -/
def rankTrades (wrappedTrades : List WrappedCrossChainTrade) :
    List WrappedCrossChainTrade :=
  match findFromTokenPrice wrappedTrades with
  | none => jsSort fallbackCmp wrappedTrades
  | some fromTokenPrice => jsSort (ratioCmp fromTokenPrice) wrappedTrades

/-- `CrossChainManager.calculateBestTradeFromTokens`: calculate, then rank. -/
def calculateBestTradeFromTokens {C : Type}
    (disabledProviders : List CrossChainTradeType)
    (celerIsSupportedBlockchain : C → Bool) (fromBlockchain toBlockchain : C)
    (calculate : CrossChainTradeType → Option WrappedProviderTrade) :
    Except CalcError (List WrappedCrossChainTrade) :=
  match calculateTradeFromTokens disabledProviders celerIsSupportedBlockchain
      fromBlockchain toBlockchain calculate with
  | .error e => .error e
  | .ok wrappedTrades => .ok (rankTrades wrappedTrades)

/-- A token argument of `calculateTrade`: either a constructed `Token`
instance or a plain `{ address, blockchain }` object literal;
`isTokenInstance` records which one (`toToken instanceof Token`). -/
structure TokenRef (C : Type) where
  isTokenInstance : Bool
  address : String
  blockchain : C
deriving DecidableEq

/-- `CrossChainManager.calculateTrade`, validation step included.  The
continuation `rest` stands for `getPriceTokensFromInputTokens` followed by
`calculateBestTradeFromTokens`; alongside its result it reports how many
network calls it issued.  The validation throw happens before `rest` runs,
so a validation error is paired with zero issued network calls. -/
def calculateTrade {C : Type} [DecidableEq C] (fromToken toToken : TokenRef C)
    (rest : Unit → Except CalcError (List WrappedCrossChainTrade) × Nat) :
    Except CalcError (List WrappedCrossChainTrade) × Nat :=
  if toToken.isTokenInstance = true ∧ fromToken.blockchain = toToken.blockchain then
    (.error .validationError, 0)
  else rest ()

theorem rankTrades_perm (wrappedTrades : List WrappedCrossChainTrade) :
    (rankTrades wrappedTrades).Perm wrappedTrades := by
  unfold rankTrades
  cases findFromTokenPrice wrappedTrades with
  | none => exact jsSort_perm _ _
  | some p => exact jsSort_perm _ _

/-! ## Claim theorems -/

/-- C1: For every batch of N read calls submitted to `rpcBatchRequest`, the
returned sequence has one entry per submitted call, positionally aligned
with the submitted call order regardless of the order in which the transport
delivers the responses (here: any permutation of the per-call responses):
each call is assigned a correlation id (`seed + index`) unique within the
batch, the response set is sorted by id, and results are mapped back into
the original positions. -/
theorem rpcBatchRequest_preserves_order {P T E : Type} (seed : Nat)
    (rpcCallsData : List (RpcCallData P))
    (post : List (BatchEntry P) → Except E (List (RpcResponse T)))
    (err : Nat → Bool) (res : Nat → Option T) (response : List (RpcResponse T))
    (hpost : post (rpcBatchEnvelope seed rpcCallsData) = .ok response)
    (hperm : response.Perm (canonicalResponses T seed rpcCallsData.length err res)) :
    rpcBatchRequest seed rpcCallsData post
      = .ok ((List.range rpcCallsData.length).map fun i =>
          if err i then none else res i)
    ∧ ((List.range rpcCallsData.length).map fun i =>
        (if err i then none else res i : Option T)).length = rpcCallsData.length
    ∧ ((rpcBatchEnvelope seed rpcCallsData).map fun e => e.id).Nodup := by
  refine ⟨rpcBatchRequest_canonical hpost hperm, by simp, ?_⟩
  rw [rpcBatchEnvelope_ids]
  exact (List.nodup_range _).map fun a b h => by omega

/-- Witness for C1: a three-call batch whose responses arrive in the order
3rd, 1st, 2nd, with the 2nd call failing node-side. -/
theorem rpcBatchRequest_preserves_order_witness :
    rpcBatchRequest 100
      [⟨"eth_estimateGas", 0⟩, ⟨"eth_call", 1⟩, ⟨"eth_call", 2⟩]
      (fun _ => (.ok [⟨102, false, some 7⟩, ⟨100, false, some 5⟩, ⟨101, true, none⟩] :
        Except String (List (RpcResponse Nat))))
      = .ok [some 5, none, some 7] := by
  have h := rpcBatchRequest_preserves_order 100
      [⟨"eth_estimateGas", 0⟩, ⟨"eth_call", 1⟩, ⟨"eth_call", 2⟩]
      (fun _ => (.ok [⟨102, false, some 7⟩, ⟨100, false, some 5⟩, ⟨101, true, none⟩] :
        Except String (List (RpcResponse Nat))))
      (fun i => decide (i = 1))
      (fun i => if i = 0 then some 5 else if i = 1 then none else some 7)
      [⟨102, false, some 7⟩, ⟨100, false, some 5⟩, ⟨101, true, none⟩]
      rfl (by decide)
  rw [h.1]
  rfl

/-- C4 (amended): a transport-level failure of the batched POST propagates
out of `rpcBatchRequest` unchanged, as a whole-batch error; but
`batchEstimatedGas` catches it and hands its caller an all-`null` result
sequence of the same length as the input instead of propagating. -/
theorem transport_error_propagation {P E T B : Type} (seed : Nat)
    (rpcCallsData : List (RpcCallData P))
    (post : List (BatchEntry P) → Except E (List (RpcResponse T)))
    (e : E) (hfail : post (rpcBatchEnvelope seed rpcCallsData) = .error e)
    (callsData : List B) (encodeCall : B → RpcCallData P)
    (postStr : List (BatchEntry P) → Except E (List (RpcResponse String)))
    (e2 : E)
    (hfail2 : postStr (rpcBatchEnvelope seed (callsData.map encodeCall)) = .error e2)
    (toBigNumber : String → ℚ) :
    rpcBatchRequest seed rpcCallsData post = .error e
    ∧ batchEstimatedGas seed callsData encodeCall postStr toBigNumber
        = callsData.map fun _ => none := by
  constructor
  · unfold rpcBatchRequest
    rw [hfail]
  · unfold batchEstimatedGas rpcBatchRequest
    rw [hfail2]

/-- Witness for C4 (amended): one concrete failing transport. -/
theorem transport_error_propagation_witness :
    rpcBatchRequest 5 [(⟨"eth_call", 0⟩ : RpcCallData Nat)]
        (fun _ => (.error "refused" : Except String (List (RpcResponse Nat))))
      = .error "refused"
    ∧ batchEstimatedGas 5 [0, 1] (fun b => (⟨"eth_estimateGas", b⟩ : RpcCallData Nat))
        (fun _ => (.error "refused" : Except String (List (RpcResponse String))))
        (fun _ => 0)
      = [none, none] := by
  have h := transport_error_propagation 5 [(⟨"eth_call", 0⟩ : RpcCallData Nat)]
      (fun _ => (.error "refused" : Except String (List (RpcResponse Nat))))
      "refused" rfl [0, 1] (fun b => (⟨"eth_estimateGas", b⟩ : RpcCallData Nat))
      (fun _ => (.error "refused" : Except String (List (RpcResponse String))))
      "refused" rfl (fun _ => 0)
  exact ⟨h.1, h.2⟩

/-- C4 counterexample: a two-call `batchEstimatedGas` whose POST itself
fails returns the all-`null` sequence `[null, null]` to its caller — the
whole-batch transport error is silently converted, not propagated. -/
theorem batchEstimatedGas_swallows_transport_error :
    batchEstimatedGas 0 [0, 1] (fun b => (⟨"eth_estimateGas", b⟩ : RpcCallData Nat))
      (fun _ => (.error "connection refused" : Except String (List (RpcResponse String))))
      (fun _ => 0)
      = [none, none] := rfl

/-- C9: in a batch containing both node-side-failing and succeeding calls,
each failing call maps to `null` (`rpcBatchRequest`) or to
`{success: false, output: null}` (`multicallContractMethod`) at its own
position only, and every succeeding call's result is still returned at its
position: position `i` of the output depends only on call `i`'s own
outcome. -/
theorem batch_failure_isolation {P T E A O B : Type} (seed : Nat)
    (rpcCallsData : List (RpcCallData P))
    (post : List (BatchEntry P) → Except E (List (RpcResponse T)))
    (err : Nat → Bool) (res : Nat → Option T) (response : List (RpcResponse T))
    (hpost : post (rpcBatchEnvelope seed rpcCallsData) = .ok response)
    (hperm : response.Perm (canonicalResponses T seed rpcCallsData.length err res))
    (oracle : Call → MulticallResponse) (contractAddress : String)
    (encode : A → String) (abi : B) (decodeParameters : B → String → O)
    (methodCallsArguments : List A) :
    (∀ out, rpcBatchRequest seed rpcCallsData post = .ok out →
      out.length = rpcCallsData.length ∧
      ∀ i (hi : i < out.length), out.get ⟨i, hi⟩ = if err i then none else res i)
    ∧ multicallContractMethod oracle contractAddress encode (some abi)
        decodeParameters methodCallsArguments
      = .ok (methodCallsArguments.map fun a =>
          { success := (oracle ⟨contractAddress, encode a⟩).success
            output := if (oracle ⟨contractAddress, encode a⟩).success
              then some (decodeParameters abi (oracle ⟨contractAddress, encode a⟩).returnData)
              else none }) := by
  constructor
  · intro out hout
    rw [rpcBatchRequest_canonical hpost hperm] at hout
    injection hout with hout
    subst hout
    constructor
    · simp
    · intro i hi
      simp [List.get_eq_getElem]
  · unfold multicallContractMethod multicall
    dsimp only
    rw [List.map_map, List.map_map]
    rfl

/-- Witness for C9: a two-call rpc batch (second call failing) and a
two-call multicall (first call failing). -/
theorem batch_failure_isolation_witness :
    multicallContractMethod
        (fun c => if c.callData = "bad" then ⟨false, ""⟩ else ⟨true, "7"⟩)
        "0xC" (fun a => if a = 0 then "bad" else "good") (some 0)
        (fun _ s => s) [0, 1]
      = .ok [⟨false, none⟩, ⟨true, some "7"⟩]
    ∧ ∀ out, rpcBatchRequest 10 [(⟨"m", 0⟩ : RpcCallData Nat), ⟨"m", 1⟩]
        (fun _ => (.ok [⟨11, true, none⟩, ⟨10, false, some 3⟩] :
          Except String (List (RpcResponse Nat)))) = .ok out →
        out.length = 2 := by
  have h := batch_failure_isolation 10 [(⟨"m", 0⟩ : RpcCallData Nat), ⟨"m", 1⟩]
      (fun _ => (.ok [⟨11, true, none⟩, ⟨10, false, some 3⟩] :
        Except String (List (RpcResponse Nat))))
      (fun i => decide (i = 1)) (fun i => if i = 0 then some 3 else none)
      [⟨11, true, none⟩, ⟨10, false, some 3⟩] rfl (by decide)
      (fun c => if c.callData = "bad" then ⟨false, ""⟩ else ⟨true, "7"⟩)
      "0xC" (fun a => if a = 0 then "bad" else "good") 0
      (fun _ s => s) [0, 1]
  constructor
  · rw [h.2]
    rfl
  · intro out hout
    exact (h.1 out hout).1

theorem filterMap_const_none {α β : Type} (l : List α) :
    (l.filterMap fun _ => (none : Option β)) = [] := by
  induction l with
  | nil => rfl
  | cons a as ih => simpa [List.filterMap_cons] using ih

theorem calculateTradeFromTokens_ok_ne_nil {C : Type}
    {disabledProviders : List CrossChainTradeType} {celer : C → Bool} {fb tb : C}
    {calculate : CrossChainTradeType → Option WrappedProviderTrade}
    {ws : List WrappedCrossChainTrade}
    (h : calculateTradeFromTokens disabledProviders celer fb tb calculate = .ok ws) :
    ws ≠ [] := by
  simp only [calculateTradeFromTokens] at h
  split at h
  · exact absurd h (by simp)
  · split at h
    · exact absurd h (by simp)
    · rename_i h2
      injection h with h
      subst h
      simpa [List.isEmpty_iff] using h2

theorem filterMap_all_some {α β : Type} (f : α → β) (l : List α) :
    (l.filterMap fun x => some (f x)) = l.map f := by
  induction l with
  | nil => rfl
  | cons a as ih => simp [List.filterMap_cons, ih]

/-- C2 (amended): an `ok` result of `calculateBestTradeFromTokens` is never
empty, and `aggregateFailure` is thrown when at least one provider was
selected and every selected provider's calculation SETTLED TO NULL
(timeout, thrown error, or resolved `null`).  A provider that instead
returns an error-carrying wrapped trade `{trade: null, error}` is kept by
`filter(notNull)`: when every selected provider does so, the orchestrator
returns a non-empty list containing zero usable quotes rather than raising
`aggregateFailure`. -/
theorem calculation_nonempty_or_aggregate_failure {C : Type}
    (disabledProviders : List CrossChainTradeType) (celer : C → Bool) (fb tb : C)
    (calculate : CrossChainTradeType → Option WrappedProviderTrade) :
    (∀ l, calculateBestTradeFromTokens disabledProviders celer fb tb calculate
        = .ok l → l ≠ [])
    ∧ (selectProviders disabledProviders celer fb tb ≠ [] →
        (∀ t, calculate t = none) →
        calculateTradeFromTokens disabledProviders celer fb tb calculate
          = .error .aggregateFailure)
    ∧ (∀ errOf : CrossChainTradeType → Option String,
        (∀ t, calculate t = some ⟨none, errOf t⟩) →
        selectProviders disabledProviders celer fb tb ≠ [] →
        ∃ l, calculateTradeFromTokens disabledProviders celer fb tb calculate
            = .ok l
          ∧ l ≠ [] ∧ ∀ w ∈ l, w.trade = none) := by
  refine ⟨?_, ?_, ?_⟩
  · intro l h
    cases hEq : calculateTradeFromTokens disabledProviders celer fb tb calculate with
    | error e =>
        rw [calculateBestTradeFromTokens, hEq] at h
        exact absurd h (by simp)
    | ok ws =>
        rw [calculateBestTradeFromTokens, hEq] at h
        injection h with h
        subst h
        intro hnil
        have hp := rankTrades_perm ws
        rw [hnil] at hp
        exact calculateTradeFromTokens_ok_ne_nil hEq hp.symm.eq_nil
  · intro hne hcalc
    have h1 : ¬ (selectProviders disabledProviders celer fb tb).isEmpty = true := by
      simpa [List.isEmpty_iff] using hne
    have h2 : ((selectProviders disabledProviders celer fb tb).filterMap fun t =>
        (calculate t).map fun w => (⟨w.trade, w.error, t⟩ : WrappedCrossChainTrade)) = [] := by
      calc ((selectProviders disabledProviders celer fb tb).filterMap fun t =>
            (calculate t).map fun w => (⟨w.trade, w.error, t⟩ : WrappedCrossChainTrade))
          = (selectProviders disabledProviders celer fb tb).filterMap
              fun _ => (none : Option WrappedCrossChainTrade) := by
            apply List.filterMap_congr
            intro t _
            rw [hcalc t]
            rfl
        _ = [] := filterMap_const_none _
    unfold calculateTradeFromTokens
    rw [if_neg h1, h2]
    rfl
  · intro errOf hcalc hne
    have h1 : ¬ (selectProviders disabledProviders celer fb tb).isEmpty = true := by
      simpa [List.isEmpty_iff] using hne
    have hres : ((selectProviders disabledProviders celer fb tb).filterMap fun t =>
        (calculate t).map fun w => (⟨w.trade, w.error, t⟩ : WrappedCrossChainTrade))
        = (selectProviders disabledProviders celer fb tb).map
            fun t => (⟨none, errOf t, t⟩ : WrappedCrossChainTrade) := by
      calc ((selectProviders disabledProviders celer fb tb).filterMap fun t =>
            (calculate t).map fun w => (⟨w.trade, w.error, t⟩ : WrappedCrossChainTrade))
          = (selectProviders disabledProviders celer fb tb).filterMap
              fun t => some (⟨none, errOf t, t⟩ : WrappedCrossChainTrade) := by
            apply List.filterMap_congr
            intro t _
            rw [hcalc t]
            rfl
        _ = _ := filterMap_all_some _ _
    have h2 : ¬ ((selectProviders disabledProviders celer fb tb).map
        fun t => (⟨none, errOf t, t⟩ : WrappedCrossChainTrade)).isEmpty = true := by
      simp [List.isEmpty_iff, hne]
    refine ⟨(selectProviders disabledProviders celer fb tb).map
        fun t => (⟨none, errOf t, t⟩ : WrappedCrossChainTrade), ?_, ?_, ?_⟩
    · unfold calculateTradeFromTokens
      rw [if_neg h1, hres, if_neg h2]
    · simpa using hne
    · intro w hw
      rcases List.mem_map.mp hw with ⟨t, _, rfl⟩
      rfl

/-- C2 counterexample: with all four providers enabled and every provider
RETURNING an error — resolving to the wrapped object
`{trade: null, error}`, as e.g. a caught min/max-amount error produces —
the orchestrator does NOT raise `aggregateFailure`: it returns an `ok`
list whose every entry carries `trade: null`, i.e. a success sequence with
zero usable quotes. -/
theorem calculateTradeFromTokens_keeps_wrapped_errors :
    calculateTradeFromTokens [] (fun _ : Unit => false) () ()
        (fun _ => some ⟨none, some "min amount error"⟩)
      = .ok [⟨none, some "min amount error", .rubic⟩,
          ⟨none, some "min amount error", .celer⟩,
          ⟨none, some "min amount error", .symbiosis⟩,
          ⟨none, some "min amount error", .lifi⟩]
    ∧ calculateTradeFromTokens [] (fun _ : Unit => false) () ()
        (fun _ => some ⟨none, some "min amount error"⟩)
      ≠ .error .aggregateFailure := by
  have h : calculateTradeFromTokens [] (fun _ : Unit => false) () ()
      (fun _ => some ⟨none, some "min amount error"⟩)
      = .ok [⟨none, some "min amount error", .rubic⟩,
          ⟨none, some "min amount error", .celer⟩,
          ⟨none, some "min amount error", .symbiosis⟩,
          ⟨none, some "min amount error", .lifi⟩] := rfl
  refine ⟨h, ?_⟩
  rw [h]
  exact fun hc => Except.noConfusion hc

/-- Witness for C2 (amended): all providers settling to `null` raises
`aggregateFailure`; all providers returning wrapped errors yields a
non-empty `ok` list with no usable quote. -/
theorem calculation_nonempty_or_aggregate_failure_witness :
    calculateTradeFromTokens [] (fun _ : Unit => false) () () (fun _ => none)
      = .error .aggregateFailure
    ∧ ∃ l, calculateTradeFromTokens [] (fun _ : Unit => false) () ()
          (fun _ => some ⟨none, some "err"⟩) = .ok l
        ∧ l ≠ [] ∧ ∀ w ∈ l, w.trade = none := by
  constructor
  · exact (calculation_nonempty_or_aggregate_failure
        [] (fun _ : Unit => false) () () (fun _ => none)).2.1 (by decide) (fun t => rfl)
  · exact (calculation_nonempty_or_aggregate_failure
        [] (fun _ : Unit => false) () () (fun _ => some ⟨none, some "err"⟩)).2.2
        (fun _ => some "err") (fun t => rfl) (by decide)

/-- C7: provider selection starts from the full registry, removes every
explicitly disabled provider type, suppresses the general `RUBIC` provider
whenever the specialized Celer provider claims support for both the source
and the destination blockchain, and an empty remaining set makes the
calculation fail with `noProvidersAvailable`. -/
theorem provider_selection_spec {C : Type}
    (disabledProviders : List CrossChainTradeType) (celer : C → Bool) (fb tb : C)
    (calculate : CrossChainTradeType → Option WrappedProviderTrade) :
    (∀ t, t ∈ selectProviders disabledProviders celer fb tb ↔
        (t ∈ tradeProviders ∧ t ∉ disabledProviders ∧
          ¬(t = CrossChainTradeType.rubic ∧ celer fb = true ∧ celer tb = true)))
    ∧ (selectProviders disabledProviders celer fb tb = [] →
        calculateTradeFromTokens disabledProviders celer fb tb calculate
          = .error .noProvidersAvailable) := by
  constructor
  · intro t
    simp only [selectProviders, List.mem_filter]
    have hpred : ((if disabledProviders.contains t then false
          else if t == CrossChainTradeType.rubic && celer fb && celer tb then false
          else true) = true)
        ↔ (t ∉ disabledProviders ∧
            ¬(t = CrossChainTradeType.rubic ∧ celer fb = true ∧ celer tb = true)) := by
      by_cases h1 : t ∈ disabledProviders <;>
        by_cases hr : t = CrossChainTradeType.rubic <;>
          by_cases hf : celer fb = true <;>
            by_cases hb : celer tb = true <;>
              simp [h1, hr, hf, hb]
    exact and_congr_right fun _ => hpred
  · intro hsel
    simp [calculateTradeFromTokens, hsel]

/-- Witness for C7: with everything disabled the calculation fails with
`noProvidersAvailable`; with only Symbiosis disabled and Celer supporting
both chains, Celer stays selected (and, per the theorem, Rubic does not). -/
theorem provider_selection_spec_witness :
    calculateTradeFromTokens
        [CrossChainTradeType.rubic, .celer, .symbiosis, .lifi]
        (fun _ : Unit => false) () () (fun _ => some ⟨none, none⟩)
      = .error .noProvidersAvailable
    ∧ CrossChainTradeType.celer ∈ selectProviders [CrossChainTradeType.symbiosis]
        (fun _ : Unit => true) () () := by
  constructor
  · exact (provider_selection_spec
        [CrossChainTradeType.rubic, .celer, .symbiosis, .lifi]
        (fun _ : Unit => false) () () (fun _ => some ⟨none, none⟩)).2 (by decide)
  · exact ((provider_selection_spec [CrossChainTradeType.symbiosis]
        (fun _ : Unit => true) () () (fun _ => none)).1 CrossChainTradeType.celer).mpr
        (by decide)

/-- C5 (amended): when `toToken` is a constructed `Token` instance sharing
`fromToken`'s blockchain, `calculateTrade` throws the validation error
before the price-token resolution or any provider runs, so zero network
calls are issued.  (When `toToken` is a plain object literal the
`instanceof` guard skips this validation — see the counterexample.) -/
theorem calculateTrade_validates_token_instance {C : Type} [DecidableEq C]
    (fromToken toToken : TokenRef C)
    (rest : Unit → Except CalcError (List WrappedCrossChainTrade) × Nat)
    (hinst : toToken.isTokenInstance = true)
    (hchain : fromToken.blockchain = toToken.blockchain) :
    calculateTrade fromToken toToken rest = (.error .validationError, 0) := by
  unfold calculateTrade
  rw [if_pos ⟨hinst, hchain⟩]

/-- Witness for C5 (amended): two `Token` instances on the same chain. -/
theorem calculateTrade_validates_token_instance_witness :
    calculateTrade (C := String) ⟨true, "0xa", "ETHEREUM"⟩ ⟨true, "0xb", "ETHEREUM"⟩
        (fun _ => (.ok [], 3))
      = (.error .validationError, 0) :=
  calculateTrade_validates_token_instance
    ⟨true, "0xa", "ETHEREUM"⟩ ⟨true, "0xb", "ETHEREUM"⟩ (fun _ => (.ok [], 3)) rfl rfl

/-- C5 counterexample: a request whose source and destination (token,
chain) pairs are identical, but whose `toToken` is a plain
`{ address, blockchain }` object rather than a `Token` instance, is NOT
rejected: the `toToken instanceof Token` guard skips the validation and the
calculation proceeds, issuing network calls. -/
theorem calculateTrade_skips_validation_for_plain_object :
    calculateTrade (C := String) ⟨true, "0xa", "ETHEREUM"⟩ ⟨false, "0xa", "ETHEREUM"⟩
        (fun _ => (.ok [⟨some ⟨.other, 1, 0, 0⟩, none, .rubic⟩], 1))
      = (.ok [⟨some ⟨.other, 1, 0, 0⟩, none, .rubic⟩], 1)
    ∧ calculateTrade (C := String) ⟨true, "0xa", "ETHEREUM"⟩ ⟨false, "0xa", "ETHEREUM"⟩
        (fun _ => (.ok [⟨some ⟨.other, 1, 0, 0⟩, none, .rubic⟩], 1))
      ≠ (.error .validationError, 0) := by
  constructor
  · simp [calculateTrade]
  · simp [calculateTrade]

theorem comparedTo_le_zero_iff (x y : WithTop ℚ) :
    comparedTo x y ≤ 0 ↔ x ≤ y := by
  unfold comparedTo
  split_ifs with h1 h2
  · simp [le_of_lt h1]
  · constructor
    · intro h
      norm_num at h
    · intro h
      exact absurd h2 (not_lt.mpr h)
  · simp [not_lt.mp h2]

theorem ratioCmp_total (p : ℚ) (a b : WrappedCrossChainTrade)
    (h : ¬ ratioCmp p a b < 0) : ratioCmp p b a ≤ 0 := by
  unfold ratioCmp comparedTo at h ⊢
  split_ifs with h1 h2
  · norm_num
  · exfalso
    apply h
    rw [if_pos h2]
    norm_num
  · norm_num

theorem ratioCmp_trans (p : ℚ) (a b c : WrappedCrossChainTrade)
    (h1 : ratioCmp p a b ≤ 0) (h2 : ratioCmp p b c ≤ 0) : ratioCmp p a c ≤ 0 := by
  rw [ratioCmp, comparedTo_le_zero_iff] at h1 h2 ⊢
  exact le_trans h1 h2

/-- C3: when a reference price `p` for the input token is obtainable (from
the first Lifi quote), the ranking sorts ascending by the effective cost
ratio — `p / outputAmount` for an ordinary quote and
`(p + cryptoFeeTokenPrice) / outputAmount` for a Celer quote, whose fixed
crypto-fee cost is first converted into the reference unit and added, not
ignored — so the result is a permutation of the quotes whose first element
has minimal ratio, and a quote carrying a positive fixed cost has a
strictly larger ratio than an otherwise-equal quote without it. -/
theorem bestTrade_ranking (ws : List WrappedCrossChainTrade) (p : ℚ)
    (hprice : findFromTokenPrice ws = some p) :
    (rankTrades ws).Perm ws
    ∧ (∀ h t, rankTrades ws = h :: t →
        ∀ w ∈ rankTrades ws,
          getProviderRatio h.trade p ≤ getProviderRatio w.trade p)
    ∧ (∀ tc tn : CrossChainTrade,
        tc.kind = .celer → tn.kind ≠ .celer →
        tc.toTokenAmount = tn.toTokenAmount →
        0 < tn.toTokenAmount → 0 < tc.cryptoFeeTokenPrice →
        getProviderRatio (some tc) p
            = (((p + tc.cryptoFeeTokenPrice) / tc.toTokenAmount : ℚ) : WithTop ℚ)
        ∧ getProviderRatio (some tn) p = ((p / tn.toTokenAmount : ℚ) : WithTop ℚ)
        ∧ getProviderRatio (some tn) p < getProviderRatio (some tc) p) := by
  have hrank : rankTrades ws = jsSort (ratioCmp p) ws := by
    unfold rankTrades
    rw [hprice]
  refine ⟨hrank ▸ jsSort_perm _ _, ?_, ?_⟩
  · intro h t heq w hw
    have hpw := jsSort_pairwise (ratioCmp_total p) (ratioCmp_trans p) ws
    rw [← hrank, heq] at hpw
    rw [heq] at hw
    rcases List.mem_cons.mp hw with hwh | hw
    · rw [hwh]
    · exact (comparedTo_le_zero_iff _ _).mp ((List.pairwise_cons.mp hpw).1 w hw)
  · intro tc tn hc hn hout hpos hfee
    have h1 : getProviderRatio (some tc) p
        = (((p + tc.cryptoFeeTokenPrice) / tc.toTokenAmount : ℚ) : WithTop ℚ) := by
      simp [getProviderRatio, hc]
    have h2 : getProviderRatio (some tn) p
        = ((p / tn.toTokenAmount : ℚ) : WithTop ℚ) := by
      simp [getProviderRatio, hn]
    refine ⟨h1, h2, ?_⟩
    rw [h1, h2, hout, WithTop.coe_lt_coe]
    gcongr
    linarith

/-- Witness for C3: a Celer quote and a Lifi quote with equal output; the
Lifi quote carries the reference price 10 and, having no fixed crypto-fee
cost, ranks strictly better. -/
theorem bestTrade_ranking_witness :
    (rankTrades [⟨some ⟨.celer, 2, 2, 0⟩, none, .celer⟩,
        ⟨some ⟨.lifi, 2, 0, 10⟩, none, .lifi⟩]).Perm
      [⟨some ⟨.celer, 2, 2, 0⟩, none, .celer⟩, ⟨some ⟨.lifi, 2, 0, 10⟩, none, .lifi⟩]
    ∧ getProviderRatio (some ⟨.lifi, 2, 0, 10⟩) 10
        < getProviderRatio (some ⟨.celer, 2, 2, 0⟩) 10 := by
  have h := bestTrade_ranking
      [⟨some ⟨.celer, 2, 2, 0⟩, none, .celer⟩, ⟨some ⟨.lifi, 2, 0, 10⟩, none, .lifi⟩]
      10 (by rfl)
  exact ⟨h.1, (h.2.2 ⟨.celer, 2, 2, 0⟩ ⟨.lifi, 2, 0, 10⟩ rfl (by decide) rfl
      (by norm_num) (by norm_num)).2.2⟩

theorem jsInsert_fallback_pairwise {x : WrappedCrossChainTrade}
    {l : List WrappedCrossChainTrade}
    (hl : l.Pairwise (fun a b => a.trade = none → b.trade = none)) :
    (jsInsert fallbackCmp x l).Pairwise
      (fun a b => a.trade = none → b.trade = none) := by
  induction l with
  | nil => simp [jsInsert]
  | cons y ys ih =>
      rcases List.pairwise_cons.mp hl with ⟨hy, hys⟩
      by_cases hx : x.trade.isSome = true
      · have hc : fallbackCmp x y < 0 := by simp [fallbackCmp, hx]
        rw [jsInsert, if_pos hc]
        refine List.pairwise_cons.mpr ⟨?_, hl⟩
        intro z hz hxn
        rw [hxn] at hx
        simp at hx
      · have hc : ¬ fallbackCmp x y < 0 := by simp [fallbackCmp, hx]
        rw [jsInsert, if_neg hc]
        refine List.pairwise_cons.mpr ⟨?_, ih hys⟩
        intro z hz
        rcases mem_jsInsert.mp hz with hzx | hz
        · intro _
          rw [hzx]
          exact Option.not_isSome_iff_eq_none.mp (by simpa using hx)
        · exact hy z hz

theorem jsSort_fallback_pairwise (l : List WrappedCrossChainTrade) :
    (jsSort fallbackCmp l).Pairwise
      (fun a b => a.trade = none → b.trade = none) := by
  induction l with
  | nil => simp [jsSort]
  | cons x xs ih => exact jsInsert_fallback_pairwise ih

/-- C8 (amended): when no reference price is obtainable from any quote, the
fallback sort still yields a permutation of the quotes in which every entry
holding a successful trade precedes every entry without one (under the
insertion-sort model of `Array.prototype.sort`); but its comparator
`tradeA => (tradeA?.trade ? -1 : 1)` ignores its second argument and is not
a consistent (total-order, stability-guaranteeing) comparator — see the
counterexample. -/
theorem fallback_ordering (ws : List WrappedCrossChainTrade)
    (hnone : findFromTokenPrice ws = none) :
    (rankTrades ws).Perm ws
    ∧ (rankTrades ws).Pairwise (fun a b => a.trade = none → b.trade = none) := by
  have hrank : rankTrades ws = jsSort fallbackCmp ws := by
    unfold rankTrades
    rw [hnone]
  rw [hrank]
  exact ⟨jsSort_perm _ _, jsSort_fallback_pairwise ws⟩

/-- Witness for C8 (amended): one failed and one successful quote, with no
Lifi quote to supply a reference price. -/
theorem fallback_ordering_witness :
    (rankTrades [⟨none, some "err", .rubic⟩, ⟨some ⟨.other, 1, 0, 0⟩, none, .celer⟩]).Perm
      [⟨none, some "err", .rubic⟩, ⟨some ⟨.other, 1, 0, 0⟩, none, .celer⟩] :=
  (fallback_ordering
    [⟨none, some "err", .rubic⟩, ⟨some ⟨.other, 1, 0, 0⟩, none, .celer⟩] (by rfl)).1

/-- C8 counterexample: the fallback comparator is not a total order — for
two distinct entries that both hold successful trades it answers "strictly
before" in BOTH directions, so it is not antisymmetric, not a consistent
comparison function, and cannot guarantee that equal-keyed entries keep
their relative discovery order. -/
theorem fallbackCmp_not_total_order :
    fallbackCmp ⟨some ⟨.other, 1, 0, 0⟩, none, .rubic⟩
        ⟨some ⟨.other, 2, 0, 0⟩, none, .celer⟩ < 0
    ∧ fallbackCmp ⟨some ⟨.other, 2, 0, 0⟩, none, .celer⟩
        ⟨some ⟨.other, 1, 0, 0⟩, none, .rubic⟩ < 0
    ∧ (⟨some ⟨.other, 1, 0, 0⟩, none, .rubic⟩ : WrappedCrossChainTrade)
        ≠ ⟨some ⟨.other, 2, 0, 0⟩, none, .celer⟩ := by
  refine ⟨by simp [fallbackCmp], by simp [fallbackCmp], by simp⟩

/-- C6: when the input address list contains a native-coin address, the
native query is extracted before the multicall set is built, issued as an
independent balance query, and its result is re-spliced at the native
address's original index, so the returned balance sequence has the same
length and positional order as the input address list (position `idx` holds
the native balance, every other position the multicall-derived balance of
its own address); the two sub-operations being `Promise.all`ed, the result
does not depend on which completes first. -/
theorem getTokensBalances_splices_native
    (isNative : String → Bool) (oracle : Call → MulticallResponse)
    (decodeBalance : String → ℚ) (nativeBalance : ℚ) (encodeBalanceOf : String)
    (tokensAddresses : List String) (idx : Nat)
    (h : tokensAddresses.findIdx? isNative = some idx) :
    (getTokensBalances isNative oracle decodeBalance nativeBalance encodeBalanceOf
        tokensAddresses).1
      = (tokensAddresses.take idx).map
          (tokenBalanceOf oracle decodeBalance encodeBalanceOf)
        ++ nativeBalance ::
          (tokensAddresses.drop (idx + 1)).map
            (tokenBalanceOf oracle decodeBalance encodeBalanceOf)
    ∧ (getTokensBalances isNative oracle decodeBalance nativeBalance encodeBalanceOf
        tokensAddresses).1.length = tokensAddresses.length := by
  have hlt : idx < tokensAddresses.length := findIdx?_lt_length h
  have hmain : (getTokensBalances isNative oracle decodeBalance nativeBalance
      encodeBalanceOf tokensAddresses).1
      = (tokensAddresses.take idx).map
          (tokenBalanceOf oracle decodeBalance encodeBalanceOf)
        ++ nativeBalance ::
          (tokensAddresses.drop (idx + 1)).map
            (tokenBalanceOf oracle decodeBalance encodeBalanceOf) := by
    unfold getTokensBalances
    rw [h]
    dsimp only
    unfold multicall
    rw [List.map_map, List.map_map]
    have hF : (((fun r : MulticallResponse =>
          if r.success = true then decodeBalance r.returnData else 0) ∘ oracle) ∘
        fun tokenAddress => (⟨tokenAddress, encodeBalanceOf⟩ : Call))
        = tokenBalanceOf oracle decodeBalance encodeBalanceOf := rfl
    rw [hF, List.eraseIdx_eq_take_drop_succ, List.map_append]
    generalize hA : (tokensAddresses.take idx).map
        (tokenBalanceOf oracle decodeBalance encodeBalanceOf) = A
    generalize (tokensAddresses.drop (idx + 1)).map
        (tokenBalanceOf oracle decodeBalance encodeBalanceOf) = B
    have hlen : A.length = idx := by
      rw [← hA]
      simp [hlt.le]
    rw [← hlen, insertIdx_length_append]
  refine ⟨hmain, ?_⟩
  rw [hmain]
  simp [hlt.le]
  omega

/-- Witness for C6: native coin in the middle of three addresses. -/
theorem getTokensBalances_splices_native_witness :
    (getTokensBalances (fun a => a = "0xee") (fun _ => ⟨true, "2"⟩) (fun _ => 2) 7 "bal"
        ["0xa", "0xee", "0xb"]).1 = [2, 7, 2] := by
  have h := getTokensBalances_splices_native (fun a => a = "0xee")
      (fun _ => ⟨true, "2"⟩) (fun _ => 2) 7 "bal" ["0xa", "0xee", "0xb"] 1 (by rfl)
  rw [h.1]
  rfl

/-- C10: when the caller-supplied `tokensAddresses` array contains a
native-coin address, `getTokensBalances` mutates it in place via `splice`,
removing that entry before the multicall, so the caller's argument is not
left unchanged; with no native-coin address present the argument is left
unmodified. -/
theorem getTokensBalances_mutates_argument
    (isNative : String → Bool) (oracle : Call → MulticallResponse)
    (decodeBalance : String → ℚ) (nativeBalance : ℚ) (encodeBalanceOf : String)
    (tokensAddresses : List String) :
    (∀ idx, tokensAddresses.findIdx? isNative = some idx →
      (getTokensBalances isNative oracle decodeBalance nativeBalance encodeBalanceOf
          tokensAddresses).2 = tokensAddresses.eraseIdx idx
      ∧ (getTokensBalances isNative oracle decodeBalance nativeBalance encodeBalanceOf
          tokensAddresses).2 ≠ tokensAddresses)
    ∧ (tokensAddresses.findIdx? isNative = none →
      (getTokensBalances isNative oracle decodeBalance nativeBalance encodeBalanceOf
          tokensAddresses).2 = tokensAddresses) := by
  constructor
  · intro idx h
    have hlt : idx < tokensAddresses.length := findIdx?_lt_length h
    have h2 : (getTokensBalances isNative oracle decodeBalance nativeBalance
        encodeBalanceOf tokensAddresses).2 = tokensAddresses.eraseIdx idx := by
      unfold getTokensBalances
      rw [h]
    refine ⟨h2, ?_⟩
    rw [h2]
    intro heq
    have hcontra := congrArg List.length heq
    rw [List.length_eraseIdx] at hcontra
    simp [hlt] at hcontra
    omega
  · intro h
    unfold getTokensBalances
    rw [h]

/-- Witness for C10: both the native-containing and the native-free case. -/
theorem getTokensBalances_mutates_argument_witness :
    (getTokensBalances (fun a => a = "0xee") (fun _ => ⟨true, "2"⟩) (fun _ => 2) 7 "bal"
        ["0xa", "0xee", "0xb"]).2 = ["0xa", "0xb"]
    ∧ (getTokensBalances (fun a => a = "0xee") (fun _ => ⟨true, "2"⟩) (fun _ => 2) 7 "bal"
        ["0xa", "0xb"]).2 = ["0xa", "0xb"] := by
  have h1 := getTokensBalances_mutates_argument (fun a => a = "0xee")
      (fun _ => ⟨true, "2"⟩) (fun _ => 2) 7 "bal" ["0xa", "0xee", "0xb"]
  have h2 := getTokensBalances_mutates_argument (fun a => a = "0xee")
      (fun _ => ⟨true, "2"⟩) (fun _ => 2) 7 "bal" ["0xa", "0xb"]
  exact ⟨((h1.1 1 (by rfl)).1).trans (by rfl), h2.2 (by rfl)⟩

end RubicSdk
